import Mathlib

/-!
# Verification of the signing-tool reconciliation loop (`src/auto.ts`)

A shallow embedding of the automated signing tool. The program periodically
scans reward epochs `max(last+1, current-4) .. current`, checks for each epoch
whether its uptime vote and rewards are signed, submits missing signatures, and
checkpoints the last fully completed epoch to a local JSON state file.

External collaborators (chain reads, transaction submissions, reward-data
fetch, filesystem write success) are opaque to the program; they are modelled
as an oracle (`Env`) giving, for each call, either a normal result or a thrown
JavaScript error. The observable behaviour of a run is a list of `Event`s
(epochs examined, hashes read, submissions attempted, state saves) together
with the final content of the state file and whether an exception escaped the
scope under consideration.
-/

namespace SigningTool

/-- `MAX_RETRIES` constant from `auto.ts`. -/
def MAX_RETRIES : Nat := 3

/-- `RETRY_DELAY` constant from `auto.ts` (milliseconds). -/
def RETRY_DELAY : Nat := 30 * 1000

/-- The `ZERO_BYTES32` sentinel imported from `configs/networks` (that file is
not under `src/`); per the spec it is the zero/empty hash sentinel value. -/
def ZERO_BYTES32 : String := "0x0000000000000000000000000000000000000000000000000000000000000000"

/-- A thrown JavaScript error, as observed by the catch handlers in `auto.ts`:
only its optional `reason` and `message` string fields are inspected. -/
structure JsError where
  reason : Option String
  message : Option String
deriving Repr, DecidableEq

/-- `needle` is a prefix of `hay` (over character lists). -/
def isPrefixList : List Char → List Char → Bool
  | [], _ => true
  | _ :: _, [] => false
  | a :: as, b :: bs => a == b && isPrefixList as bs

/-- `needle` occurs contiguously inside `hay` (over character lists). -/
def isInfixList (needle : List Char) : List Char → Bool
  | [] => needle.isEmpty
  | b :: bs => isPrefixList needle (b :: bs) || isInfixList needle bs

/-- JS `hay.includes(needle)`: substring containment. -/
def containsSub (needle hay : String) : Bool :=
  isInfixList needle.toList hay.toList

/-- The test at `auto.ts:80`:
`error.reason?.includes('epoch not ended') || error.message?.includes('epoch not ended')`
(an absent field is falsy, so it contributes `false`). -/
def errIndicatesNotEnded (e : JsError) : Bool :=
  (match e.reason with
   | some r => containsSub "epoch not ended" r
   | none => false)
  || (match e.message with
      | some m => containsSub "epoch not ended" m
      | none => false)

/-- The truthiness-plus-sentinel test at `auto.ts:67` and `auto.ts:99`:
`hash && hash.toString() !== ZERO_BYTES32`. A `null`/`undefined` result is
modelled as `none`; the empty string is falsy in JS. -/
def isHashPresent : Option String → Bool
  | none => false
  | some s => !(s == "") && !(s == ZERO_BYTES32)

/-- A JSON value as relevant to the state file: either a well-formed state
object `{"lastCompletedEpoch": n}`, a bare number, or any other JSON value. -/
inductive Json
  | stateObj (lastCompletedEpoch : Int)
  | num (n : Int)
  | other
deriving Repr, DecidableEq

/-- Content of the state file: either `JSON.parse` succeeds on it (yielding
some JSON value), or it is malformed and `JSON.parse` throws. -/
inductive FileContent
  | parsable (j : Json)
  | malformed
deriving Repr, DecidableEq

/-- `loadState` (`auto.ts:21-31`): if the file exists, read it and return
`JSON.parse(data)` — whatever JSON value that is; a parse failure is caught.
Only on a missing file or a caught error is the default
`{ lastCompletedEpoch: -1 }` returned. -/
def loadState : Option FileContent → Json
  | none => Json.stateObj (-1)
  | some FileContent.malformed => Json.stateObj (-1)
  | some (FileContent.parsable j) => j

/-- `saveState` (`auto.ts:33-39`): overwrite the file with
`JSON.stringify({lastCompletedEpoch: n})` (which re-parses as a well-formed
state object); a write failure (`ok = false`) is caught and leaves the file
unchanged. -/
def saveState (ok : Bool) (n : Int) (file : Option FileContent) : Option FileContent :=
  if ok then some (FileContent.parsable (Json.stateObj n)) else file

/-- Oracle for the external collaborators of one reconciliation run. Each call
either returns a value or throws a `JsError`. Per-epoch calls are keyed by the
epoch they are made for (each is made at most once per epoch per run). -/
structure Env where
  /-- `initializeFlareSystemsManager` (`auto.ts:47`). -/
  initializeFlareSystemsManager : Except JsError Unit
  /-- `flareSystemsManager.methods.getCurrentRewardEpochId().call()` (`auto.ts:48`). -/
  getCurrentRewardEpochId : Except JsError Int
  /-- `flareSystemsManager.methods.uptimeVoteHash(epochId).call()` (`auto.ts:66`). -/
  uptimeVoteHash : Int → Except JsError (Option String)
  /-- `getUptimeVoteHash(web3)` helper computing the fake vote hash (`auto.ts:74`). -/
  getUptimeVoteHash : Int → Except JsError String
  /-- `signUptimeVote(...)` submission (`auto.ts:76`). -/
  signUptimeVote : Int → Except JsError Unit
  /-- `flareSystemsManager.methods.rewardsHash(epochId).call()` (`auto.ts:98`). -/
  rewardsHash : Int → Except JsError (Option String)
  /-- `getRewardsData(epochId)` fetch (`auto.ts:107`). -/
  getRewardsData : Int → Except JsError (String × Int)
  /-- `signRewards(...)` submission (`auto.ts:108`). -/
  signRewards : Int → Except JsError Unit
  /-- Whether the `fs.writeFileSync` inside `saveState` succeeds for a given
  saved value. -/
  saveOk : Int → Bool

/-- Observable events of a reconciliation run, each carrying the epoch it
concerns. -/
inductive Event
  | examine (e : Int)
  | readUptimeHash (e : Int)
  | submitUptime (e : Int)
  | readRewardsHash (e : Int)
  | fetchRewardsData (e : Int)
  | submitRewards (e : Int)
  | save (e : Int)
  | saveFailed (e : Int)
deriving Repr, DecidableEq

/-- The epoch an event concerns. -/
def Event.epoch : Event → Int
  | .examine e | .readUptimeHash e | .submitUptime e | .readRewardsHash e
  | .fetchRewardsData e | .submitRewards e | .save e | .saveFailed e => e

/-- How one iteration of the scan loop ends: fall through to the next epoch,
`break` out of the loop, or an exception propagating out of the loop. -/
inductive BodyTag
  | next
  | brk
  | thrown
deriving Repr, DecidableEq

/-- Result of one loop iteration: how it ended, the events it emitted, and the
state file content afterwards. -/
structure BodyResult where
  tag : BodyTag
  events : List Event
  file : Option FileContent
deriving Repr, DecidableEq

/-- Outcome of a scope of the program: events emitted, final state file, and
whether an exception escaped that scope. -/
structure Outcome where
  events : List Event
  file : Option FileContent
  threw : Bool
deriving Repr, DecidableEq

/-- End of a loop iteration, `auto.ts:119-123`: if the epoch is fully
completed, update the tracker and `saveState` immediately; then continue with
the next epoch. -/
def finishEpoch (env : Env) (e : Int) (file : Option FileContent) (ev : List Event)
    (completed : Bool) : BodyResult :=
  if completed then
    if env.saveOk e then
      ⟨BodyTag.next, ev ++ [Event.save e], saveState true e file⟩
    else
      ⟨BodyTag.next, ev ++ [Event.saveFailed e], saveState false e file⟩
  else
    ⟨BodyTag.next, ev, file⟩

/-- Rewards phase of a loop iteration, `auto.ts:97-117`. The `rewardsHash`
contract read is outside any `try`, so its throw escapes the loop. A failure
of the fetch or of the submission is caught and breaks out of the loop. -/
def rewardsPhase (env : Env) (e : Int) (file : Option FileContent) (ev : List Event)
    (completed : Bool) : BodyResult :=
  match env.rewardsHash e with
  | .error _ => ⟨BodyTag.thrown, ev ++ [Event.readRewardsHash e], file⟩
  | .ok rh =>
    if isHashPresent rh then
      finishEpoch env e file (ev ++ [Event.readRewardsHash e]) completed
    else
      match env.getRewardsData e with
      | .error _ =>
        ⟨BodyTag.brk, ev ++ [Event.readRewardsHash e, Event.fetchRewardsData e], file⟩
      | .ok _ =>
        match env.signRewards e with
        | .error _ =>
          ⟨BodyTag.brk,
            ev ++ [Event.readRewardsHash e, Event.fetchRewardsData e, Event.submitRewards e],
            file⟩
        | .ok _ =>
          finishEpoch env e file
            (ev ++ [Event.readRewardsHash e, Event.fetchRewardsData e, Event.submitRewards e])
            completed

/-- One iteration of the scan loop for epoch `e`, `auto.ts:59-124`. The
`uptimeVoteHash` read and the `getUptimeVoteHash` helper are outside the inner
`try`, so their throws escape the loop. A caught submission failure either
breaks (when the error indicates "epoch not ended", `auto.ts:80-83,92-95`) or
falls through to the rewards phase with the epoch marked not fully completed. -/
def epochBody (env : Env) (e : Int) (file : Option FileContent) : BodyResult :=
  match env.uptimeVoteHash e with
  | .error _ => ⟨BodyTag.thrown, [Event.examine e, Event.readUptimeHash e], file⟩
  | .ok h =>
    if isHashPresent h then
      rewardsPhase env e file [Event.examine e, Event.readUptimeHash e] true
    else
      match env.getUptimeVoteHash e with
      | .error _ => ⟨BodyTag.thrown, [Event.examine e, Event.readUptimeHash e], file⟩
      | .ok _ =>
        match env.signUptimeVote e with
        | .ok _ =>
          rewardsPhase env e file
            [Event.examine e, Event.readUptimeHash e, Event.submitUptime e] true
        | .error err =>
          if errIndicatesNotEnded err then
            ⟨BodyTag.brk,
              [Event.examine e, Event.readUptimeHash e, Event.submitUptime e], file⟩
          else
            rewardsPhase env e file
              [Event.examine e, Event.readUptimeHash e, Event.submitUptime e] false

/-- The scan loop `for (epochId = start; epochId <= current; epochId++)`
(`auto.ts:59`), with the remaining iteration count made explicit: `fuel` is
`current + 1 - e`, so `fuel = 0` is the loop exit `e > current`. -/
def scanLoop (env : Env) : Nat → Int → Option FileContent → Outcome
  | 0, _, file => ⟨[], file, false⟩
  | fuel + 1, e, file =>
    match epochBody env e file with
    | ⟨BodyTag.next, ev, f'⟩ =>
      let r := scanLoop env fuel (e + 1) f'
      ⟨ev ++ r.events, r.file, r.threw⟩
    | ⟨BodyTag.brk, ev, f'⟩ => ⟨ev, f', false⟩
    | ⟨BodyTag.thrown, ev, f'⟩ => ⟨ev, f', true⟩

/-- `startEpoch` (`auto.ts:52`): `Math.max(state.lastCompletedEpoch + 1,
currentRewardEpochId - 4)`. -/
def startEpoch (last current : Int) : Int :=
  max (last + 1) (current - 4)

/-- Body of `checkAndSign` before the top-level `catch` (`auto.ts:46-125`).
When the loaded state is a parsed JSON value without an integer
`lastCompletedEpoch` field, `state.lastCompletedEpoch` is `undefined` in JS,
so `startEpoch` is `NaN` and the loop condition `NaN <= current` is false:
the loop body runs zero times and nothing is written. -/
def checkAndSignBody (env : Env) (file : Option FileContent) : Outcome :=
  match env.initializeFlareSystemsManager with
  | .error _ => ⟨[], file, true⟩
  | .ok _ =>
    match env.getCurrentRewardEpochId with
    | .error _ => ⟨[], file, true⟩
    | .ok current =>
      match loadState file with
      | Json.stateObj last =>
        scanLoop env (current + 1 - startEpoch last current).toNat
          (startEpoch last current) file
      | _ => ⟨[], file, false⟩

/-- `checkAndSign` (`auto.ts:45-129`): the whole body is wrapped in
`try { ... } catch (error) { console.error(...) }`, so any escaping exception
is logged and swallowed. -/
def checkAndSign (env : Env) (file : Option FileContent) : Outcome :=
  ⟨(checkAndSignBody env file).events, (checkAndSignBody env file).file, false⟩

/-- A sequence of reconciliation runs within one process lifetime, the state
file carried from each run to the next (no external modification between
runs); returns all events in order and the final file content. -/
def runs : List Env → Option FileContent → List Event × Option FileContent
  | [], file => ([], file)
  | env :: rest, file =>
    let r := checkAndSign env file
    let rr := runs rest r.file
    (r.events ++ rr.1, rr.2)

/-- The values written by successful `saveState` calls, in order. -/
def savedValues (evs : List Event) : List Int :=
  evs.filterMap fun ev =>
    match ev with
    | Event.save n => some n
    | _ => none

/-- Events of the retry wrapper: an invocation of `checkAndSign` (numbered by
the attempt counter), the fixed delay between attempts, and the terminal
"max retries reached" log. -/
inductive RetryEvent
  | attempt (k : Nat)
  | wait (ms : Nat)
  | giveUp
deriving Repr, DecidableEq

/-- The `while (retries < MAX_RETRIES)` loop of `runWithRetry`
(`auto.ts:131-149`), with the remaining allowance `MAX_RETRIES - retries` made
explicit as `fuel`: `fuel = 0` is the loop exit, after which the terminal
message is logged. Each attempt is numbered with the value of `retries` when
it is made; on a caught failure the counter is incremented, and the fixed
delay runs only when `retries < MAX_RETRIES` still holds (`auto.ts:141-144`). -/
def retryLoop (attempts : Nat → Except JsError Unit) : Nat → Nat → List RetryEvent
  | 0, _ => [RetryEvent.giveUp]
  | fuel + 1, retries =>
    match attempts retries with
    | .ok _ => [RetryEvent.attempt retries]
    | .error _ =>
      match fuel with
      | 0 => [RetryEvent.attempt retries, RetryEvent.giveUp]
      | _ + 1 =>
        RetryEvent.attempt retries :: RetryEvent.wait RETRY_DELAY ::
          retryLoop attempts fuel (retries + 1)

/-- `runWithRetry` (`auto.ts:131-149`), abstracted over the behaviour of each
`checkAndSign` invocation (the k-th invocation throws or returns as
`attempts k` says). -/
def runWithRetry (attempts : Nat → Except JsError Unit) : List RetryEvent :=
  retryLoop attempts MAX_RETRIES 0

/-! ## Concrete collaborator behaviours used to exercise the theorems -/

/-- A benign environment: current epoch 0, no hash signed yet, every
submission and save succeeds. -/
def okEnv : Env where
  initializeFlareSystemsManager := .ok ()
  getCurrentRewardEpochId := .ok 0
  uptimeVoteHash := fun _ => .ok none
  getUptimeVoteHash := fun _ => .ok "0xfake"
  signUptimeVote := fun _ => .ok ()
  rewardsHash := fun _ => .ok none
  getRewardsData := fun _ => .ok ("0xdata", 1)
  signRewards := fun _ => .ok ()
  saveOk := fun _ => true

/-- Like `okEnv` but the contract reports current reward epoch 6. -/
def envCurrent6 : Env :=
  { okEnv with getCurrentRewardEpochId := .ok 6 }

/-- Scenario B environment: current epoch 2, both hashes already present for
every epoch. -/
def envBothSigned : Env :=
  { okEnv with
      getCurrentRewardEpochId := .ok 2
      uptimeVoteHash := fun _ => .ok (some "0xaa")
      rewardsHash := fun _ => .ok (some "0xbb") }

/-- Environment whose uptime-vote submission throws an error whose `reason`
contains "epoch not ended". -/
def envNotEnded : Env :=
  { okEnv with
      getCurrentRewardEpochId := .ok 1
      signUptimeVote := fun _ => .error ⟨some "execution reverted: epoch not ended", none⟩ }

/-- Environment where the uptime hash is already present but the rewards-data
fetch throws a generic error. -/
def envRewardsFetchFails : Env :=
  { okEnv with
      getCurrentRewardEpochId := .ok 2
      uptimeVoteHash := fun _ => .ok (some "0xaa")
      getRewardsData := fun _ => .error ⟨none, some "http 500"⟩ }

/-- Environment for the gap scenario: current epoch 1; epoch 0's uptime hash
is missing and its submission fails with a generic error while its rewards
hash is present; epoch 1 has both hashes present; saves succeed. -/
def envGap : Env :=
  { okEnv with
      getCurrentRewardEpochId := .ok 1
      uptimeVoteHash := fun e => .ok (if e = 0 then none else some "0xup")
      signUptimeVote := fun _ => .error ⟨none, some "insufficient funds"⟩
      rewardsHash := fun _ => .ok (some "0xrw") }

/-! ## Helper lemmas -/

@[simp]
theorem savedValues_nil : savedValues [] = [] := rfl

@[simp]
theorem savedValues_append (l₁ l₂ : List Event) :
    savedValues (l₁ ++ l₂) = savedValues l₁ ++ savedValues l₂ :=
  List.filterMap_append l₁ l₂ _

@[simp]
theorem savedValues_examine (e : Int) (l : List Event) :
    savedValues (Event.examine e :: l) = savedValues l := rfl

@[simp]
theorem savedValues_readUptimeHash (e : Int) (l : List Event) :
    savedValues (Event.readUptimeHash e :: l) = savedValues l := rfl

@[simp]
theorem savedValues_submitUptime (e : Int) (l : List Event) :
    savedValues (Event.submitUptime e :: l) = savedValues l := rfl

@[simp]
theorem savedValues_readRewardsHash (e : Int) (l : List Event) :
    savedValues (Event.readRewardsHash e :: l) = savedValues l := rfl

@[simp]
theorem savedValues_fetchRewardsData (e : Int) (l : List Event) :
    savedValues (Event.fetchRewardsData e :: l) = savedValues l := rfl

@[simp]
theorem savedValues_submitRewards (e : Int) (l : List Event) :
    savedValues (Event.submitRewards e :: l) = savedValues l := rfl

@[simp]
theorem savedValues_save (e : Int) (l : List Event) :
    savedValues (Event.save e :: l) = e :: savedValues l := rfl

@[simp]
theorem savedValues_saveFailed (e : Int) (l : List Event) :
    savedValues (Event.saveFailed e :: l) = savedValues l := rfl

/-- Characterisation of `finishEpoch`: it always falls through to the next
epoch, appends at most a save event (for this epoch), and either leaves the
file alone or overwrites it with this epoch's state object. -/
theorem finishEpoch_spec (env : Env) (e : Int) (file : Option FileContent)
    (ev : List Event) (c : Bool) :
    ∃ tl f', finishEpoch env e file ev c = ⟨BodyTag.next, ev ++ tl, f'⟩
      ∧ ((savedValues tl = [] ∧ f' = file)
         ∨ (savedValues tl = [e] ∧ f' = some (FileContent.parsable (Json.stateObj e))))
      ∧ ∀ x ∈ tl, x.epoch = e := by
  cases c with
  | false =>
    exact ⟨[], file, by simp [finishEpoch], Or.inl ⟨rfl, rfl⟩, by simp⟩
  | true =>
    cases hs : env.saveOk e with
    | true =>
      exact ⟨[Event.save e], some (FileContent.parsable (Json.stateObj e)),
        by simp [finishEpoch, hs, saveState], Or.inr ⟨rfl, rfl⟩,
        by simp [Event.epoch]⟩
    | false =>
      exact ⟨[Event.saveFailed e], file,
        by simp [finishEpoch, hs, saveState], Or.inl ⟨rfl, rfl⟩,
        by simp [Event.epoch]⟩

/-- Characterisation of `rewardsPhase`: its first event after `ev` is the
rewards-hash read, every appended event concerns epoch `e`, and the file is
either unchanged or overwritten with this epoch's state object (the latter
only with a save event recording it). -/
theorem rewardsPhase_spec (env : Env) (e : Int) (file : Option FileContent)
    (ev : List Event) (c : Bool) :
    ∃ tg tl f',
      rewardsPhase env e file ev c = ⟨tg, ev ++ Event.readRewardsHash e :: tl, f'⟩
      ∧ ((savedValues tl = [] ∧ f' = file)
         ∨ (savedValues tl = [e] ∧ f' = some (FileContent.parsable (Json.stateObj e))))
      ∧ ∀ x ∈ tl, x.epoch = e := by
  unfold rewardsPhase
  cases hr : env.rewardsHash e with
  | error err =>
    exact ⟨BodyTag.thrown, [], file, by simp, Or.inl ⟨rfl, rfl⟩, by simp⟩
  | ok rh =>
    cases hp : isHashPresent rh with
    | true =>
      obtain ⟨tl, f', hf, hdisj, hep⟩ :=
        finishEpoch_spec env e file (ev ++ [Event.readRewardsHash e]) c
      exact ⟨BodyTag.next, tl, f', by simp [hp, hf], hdisj, hep⟩
    | false =>
      cases hd : env.getRewardsData e with
      | error err =>
        exact ⟨BodyTag.brk, [Event.fetchRewardsData e], file, by simp [hp],
          Or.inl ⟨rfl, rfl⟩, by simp [Event.epoch]⟩
      | ok d =>
        cases hs : env.signRewards e with
        | error err =>
          exact ⟨BodyTag.brk, [Event.fetchRewardsData e, Event.submitRewards e], file,
            by simp [hp], Or.inl ⟨rfl, rfl⟩, by simp [Event.epoch]⟩
        | ok u =>
          obtain ⟨tl, f', hf, hdisj, hep⟩ :=
            finishEpoch_spec env e file
              (ev ++ [Event.readRewardsHash e, Event.fetchRewardsData e,
                Event.submitRewards e]) c
          refine ⟨BodyTag.next, Event.fetchRewardsData e :: Event.submitRewards e :: tl, f',
            by simp [hp, hf], ?_, ?_⟩
          · simpa using hdisj
          · intro x hx
            simp only [List.mem_cons] at hx
            rcases hx with hx | hx | hx
            · simp [hx, Event.epoch]
            · simp [hx, Event.epoch]
            · exact hep x hx

/-- Characterisation of one loop iteration: its events are the examine and
uptime-hash-read events followed by further events, all concerning epoch `e`;
the file is unchanged unless a save event for `e` was emitted, in which case
it holds `e`'s state object. -/
theorem epochBody_spec (env : Env) (e : Int) (file : Option FileContent) :
    ∃ tg tl f',
      epochBody env e file = ⟨tg, Event.examine e :: Event.readUptimeHash e :: tl, f'⟩
      ∧ ((savedValues tl = [] ∧ f' = file)
         ∨ (savedValues tl = [e] ∧ f' = some (FileContent.parsable (Json.stateObj e))))
      ∧ ∀ x ∈ tl, x.epoch = e := by
  unfold epochBody
  cases hu : env.uptimeVoteHash e with
  | error err =>
    exact ⟨BodyTag.thrown, [], file, by simp, Or.inl ⟨rfl, rfl⟩, by simp⟩
  | ok h =>
    cases hp : isHashPresent h with
    | true =>
      obtain ⟨tg, tl, f', hf, hdisj, hep⟩ :=
        rewardsPhase_spec env e file [Event.examine e, Event.readUptimeHash e] true
      refine ⟨tg, Event.readRewardsHash e :: tl, f', by simp [hp, hf], ?_, ?_⟩
      · simpa using hdisj
      · intro x hx
        simp only [List.mem_cons] at hx
        rcases hx with hx | hx
        · simp [hx, Event.epoch]
        · exact hep x hx
    | false =>
      cases hg : env.getUptimeVoteHash e with
      | error err =>
        exact ⟨BodyTag.thrown, [], file, by simp [hp], Or.inl ⟨rfl, rfl⟩, by simp⟩
      | ok s =>
        cases hs : env.signUptimeVote e with
        | ok u =>
          obtain ⟨tg, tl, f', hf, hdisj, hep⟩ :=
            rewardsPhase_spec env e file
              [Event.examine e, Event.readUptimeHash e, Event.submitUptime e] true
          refine ⟨tg, Event.submitUptime e :: Event.readRewardsHash e :: tl, f',
            by simp [hp, hf], ?_, ?_⟩
          · simpa using hdisj
          · intro x hx
            simp only [List.mem_cons] at hx
            rcases hx with hx | hx | hx
            · simp [hx, Event.epoch]
            · simp [hx, Event.epoch]
            · exact hep x hx
        | error err =>
          cases hne : errIndicatesNotEnded err with
          | true =>
            exact ⟨BodyTag.brk, [Event.submitUptime e], file, by simp [hp, hne],
              Or.inl ⟨rfl, rfl⟩, by simp [Event.epoch]⟩
          | false =>
            obtain ⟨tg, tl, f', hf, hdisj, hep⟩ :=
              rewardsPhase_spec env e file
                [Event.examine e, Event.readUptimeHash e, Event.submitUptime e] false
            refine ⟨tg, Event.submitUptime e :: Event.readRewardsHash e :: tl, f',
              by simp [hp, hne, hf], ?_, ?_⟩
            · simpa using hdisj
            · intro x hx
              simp only [List.mem_cons] at hx
              rcases hx with hx | hx | hx
              · simp [hx, Event.epoch]
              · simp [hx, Event.epoch]
              · exact hep x hx

/-- Every event emitted by the scan loop started at epoch `e` concerns an
epoch at least `e`: the loop processes epochs in increasing order and never
looks back. -/
theorem scanLoop_events_epoch (env : Env) :
    ∀ (fuel : Nat) (e : Int) (file : Option FileContent),
      ∀ x ∈ (scanLoop env fuel e file).events, e ≤ x.epoch
  | 0, e, file => by simp [scanLoop]
  | fuel + 1, e, file => by
    obtain ⟨tg, tl, f', hb, _, hep⟩ := epochBody_spec env e file
    have hhead : ∀ x ∈ Event.examine e :: Event.readUptimeHash e :: tl, e ≤ x.epoch := by
      intro x hx
      simp only [List.mem_cons] at hx
      rcases hx with hx | hx | hx
      · simp [hx, Event.epoch]
      · simp [hx, Event.epoch]
      · exact le_of_eq (hep x hx).symm
    cases tg with
    | brk => intro x hx; rw [scanLoop, hb] at hx; exact hhead x hx
    | thrown => intro x hx; rw [scanLoop, hb] at hx; exact hhead x hx
    | next =>
      intro x hx
      rw [scanLoop, hb] at hx
      simp only [List.mem_append] at hx
      rcases hx with hx | hx
      · exact hhead x hx
      · have := scanLoop_events_epoch env fuel (e + 1) f' x hx
        omega

/-- Invariant of the scan loop started at epoch `e`: every value saved is at
least `e`; the saved values are strictly increasing; and the final file is
either the initial one (with no successful save at all) or the state object of
the largest saved value. -/
theorem scanLoop_saves (env : Env) :
    ∀ (fuel : Nat) (e : Int) (file : Option FileContent),
      (∀ v ∈ savedValues (scanLoop env fuel e file).events, e ≤ v)
      ∧ List.Pairwise (· < ·) (savedValues (scanLoop env fuel e file).events)
      ∧ (((scanLoop env fuel e file).file = file
            ∧ savedValues (scanLoop env fuel e file).events = [])
         ∨ ∃ m, (scanLoop env fuel e file).file
                  = some (FileContent.parsable (Json.stateObj m))
             ∧ m ∈ savedValues (scanLoop env fuel e file).events
             ∧ ∀ v ∈ savedValues (scanLoop env fuel e file).events, v ≤ m)
  | 0, e, file => by simp [scanLoop]
  | fuel + 1, e, file => by
    obtain ⟨tg, tl, f', hb, hdisj, _⟩ := epochBody_spec env e file
    cases tg with
    | brk =>
      rw [scanLoop, hb]
      simp only [savedValues_examine, savedValues_readUptimeHash]
      rcases hdisj with ⟨hsv, hf⟩ | ⟨hsv, hf⟩
      · simp [hsv, hf]
      · simp only [hsv, hf]
        exact ⟨by simp, by simp, Or.inr ⟨e, rfl, by simp, by simp⟩⟩
    | thrown =>
      rw [scanLoop, hb]
      simp only [savedValues_examine, savedValues_readUptimeHash]
      rcases hdisj with ⟨hsv, hf⟩ | ⟨hsv, hf⟩
      · simp [hsv, hf]
      · simp only [hsv, hf]
        exact ⟨by simp, by simp, Or.inr ⟨e, rfl, by simp, by simp⟩⟩
    | next =>
      obtain ⟨ih1, ih2, ih3⟩ := scanLoop_saves env fuel (e + 1) f'
      rw [scanLoop, hb]
      simp only [savedValues_append, savedValues_examine, savedValues_readUptimeHash]
      have hrec_lb : ∀ v ∈ savedValues (scanLoop env fuel (e + 1) f').events, e < v := by
        intro v hv; have := ih1 v hv; omega
      rcases hdisj with ⟨hsv, hf⟩ | ⟨hsv, hf⟩
      · subst hf
        refine ⟨?_, ?_, ?_⟩
        · intro v hv
          rw [hsv] at hv
          simp only [List.nil_append] at hv
          exact le_of_lt (hrec_lb v hv)
        · rw [hsv]; simpa using ih2
        · rw [hsv]
          simp only [List.nil_append]
          exact ih3
      · refine ⟨?_, ?_, ?_⟩
        · intro v hv
          rw [hsv] at hv
          simp only [List.cons_append, List.nil_append, List.mem_cons] at hv
          rcases hv with hv | hv
          · omega
          · exact le_of_lt (hrec_lb v hv)
        · rw [hsv]
          simp only [List.cons_append, List.nil_append]
          rw [List.pairwise_cons]
          exact ⟨fun v hv => hrec_lb v hv, ih2⟩
        · rw [hsv]
          simp only [List.cons_append, List.nil_append]
          rcases ih3 with ⟨hfile, hnil⟩ | ⟨m, hfile, hm, hub⟩
          · rw [hnil, hfile, hf]
            exact Or.inr ⟨e, rfl, by simp, by simp⟩
          · refine Or.inr ⟨m, hfile, by simp [hm], ?_⟩
            intro v hv
            simp only [List.mem_cons] at hv
            rcases hv with hv | hv
            · have := hrec_lb m hm; omega
            · exact hub v hv

/-- Invariant of one full `checkAndSign` run started from a well-formed state
file holding `n` (a missing file counts as holding `-1`): every saved value
exceeds `n`, the saved values are strictly increasing, and the final file is
the initial one (no save) or the state object of the largest saved value. -/
theorem checkAndSign_saves (env : Env) (file : Option FileContent) (n : Int)
    (hFile : file = none ∧ n = -1 ∨ file = some (FileContent.parsable (Json.stateObj n))) :
    (∀ v ∈ savedValues (checkAndSign env file).events, n < v)
    ∧ List.Pairwise (· < ·) (savedValues (checkAndSign env file).events)
    ∧ (((checkAndSign env file).file = file
          ∧ savedValues (checkAndSign env file).events = [])
       ∨ ∃ m, n < m
           ∧ (checkAndSign env file).file = some (FileContent.parsable (Json.stateObj m))
           ∧ ∀ v ∈ savedValues (checkAndSign env file).events, v ≤ m) := by
  have hload : loadState file = Json.stateObj n := by
    rcases hFile with ⟨hf, hn⟩ | hf
    · rw [hf, hn]; rfl
    · rw [hf]; rfl
  simp only [checkAndSign]
  unfold checkAndSignBody
  cases hi : env.initializeFlareSystemsManager with
  | error err => simp
  | ok u =>
    cases hc : env.getCurrentRewardEpochId with
    | error err => simp
    | ok current =>
      rw [hload]
      have hstart : n + 1 ≤ startEpoch n current := le_max_left _ _
      obtain ⟨s1, s2, s3⟩ := scanLoop_saves env
        ((current + 1 - startEpoch n current).toNat) (startEpoch n current) file
      refine ⟨?_, s2, ?_⟩
      · intro v hv
        have := s1 v hv
        omega
      · rcases s3 with ⟨hf, hnil⟩ | ⟨m, hf, hm, hub⟩
        · exact Or.inl ⟨hf, hnil⟩
        · refine Or.inr ⟨m, ?_, hf, hub⟩
          have := s1 m hm
          omega

/-- Invariant of a sequence of runs started from a well-formed state file
holding `n`: all saved values exceed `n` and are strictly increasing across
the whole sequence, and the final file is the initial one or the state object
of a value `m` dominating every saved value. -/
theorem runs_saves :
    ∀ (envs : List Env) (file : Option FileContent) (n : Int),
      (file = none ∧ n = -1 ∨ file = some (FileContent.parsable (Json.stateObj n))) →
      (∀ v ∈ savedValues (runs envs file).1, n < v)
      ∧ List.Pairwise (· < ·) (savedValues (runs envs file).1)
      ∧ ∃ m, n ≤ m
          ∧ ((runs envs file).2 = file ∧ m = n
             ∨ (runs envs file).2 = some (FileContent.parsable (Json.stateObj m)))
          ∧ ∀ v ∈ savedValues (runs envs file).1, v ≤ m
  | [], file, n, hFile => by
    refine ⟨by simp [runs], by simp [runs], n, le_refl n, Or.inl ⟨rfl, rfl⟩, by simp [runs]⟩
  | env :: rest, file, n, hFile => by
    obtain ⟨c1, c2, c3⟩ := checkAndSign_saves env file n hFile
    simp only [runs, savedValues_append]
    rcases c3 with ⟨hf, hnil⟩ | ⟨m1, hm1n, hf, hub1⟩
    · obtain ⟨r1, r2, m, hnm, hmf, hub⟩ :=
        runs_saves rest (checkAndSign env file).file n (by rw [hf]; exact hFile)
      rw [hnil]
      simp only [List.nil_append]
      refine ⟨r1, r2, m, hnm, ?_, hub⟩
      rcases hmf with ⟨h1, h2⟩ | h1
      · exact Or.inl ⟨by rw [h1, hf], h2⟩
      · exact Or.inr h1
    · obtain ⟨r1, r2, m2, hm2, hmf, hub2⟩ :=
        runs_saves rest (checkAndSign env file).file m1 (Or.inr hf)
      refine ⟨?_, ?_, m2, by omega, ?_, ?_⟩
      · intro v hv
        simp only [List.mem_append] at hv
        rcases hv with hv | hv
        · exact c1 v hv
        · have := r1 v hv
          omega
      · rw [List.pairwise_append]
        refine ⟨c2, r2, ?_⟩
        intro a ha b hb
        have ham := hub1 a ha
        have hbm := r1 b hb
        omega
      · rcases hmf with ⟨h1, h2⟩ | h1
        · exact Or.inr (by rw [h1, hf, h2])
        · exact Or.inr h1
      · intro v hv
        simp only [List.mem_append] at hv
        rcases hv with hv | hv
        · have := hub1 v hv
          omega
        · exact hub2 v hv

/-! ## Claim theorems -/

/-- C1: the reconciliation routine computes its scan start as
`start = max(last + 1, current - 4)`; when `last + 1 > current` the loop body
executes zero times (no epoch examined, no hash read, no submission, file
untouched), and otherwise the first epoch examined is exactly that start. -/
theorem scan_start_formula_and_empty_scan (env : Env) (last current : Int)
    (file : Option FileContent)
    (hInit : env.initializeFlareSystemsManager = .ok ())
    (hCur : env.getCurrentRewardEpochId = .ok current)
    (hFile : file = some (FileContent.parsable (Json.stateObj last))) :
    (last + 1 > current → checkAndSign env file = ⟨[], file, false⟩)
    ∧ (last + 1 ≤ current → ∃ tl, (checkAndSign env file).events
        = Event.examine (max (last + 1) (current - 4)) :: tl) := by
  have hbody : checkAndSignBody env file
      = scanLoop env ((current + 1 - startEpoch last current).toNat)
          (startEpoch last current) file := by
    unfold checkAndSignBody
    rw [hInit, hCur, hFile]
    rfl
  have hstart : last + 1 ≤ startEpoch last current := le_max_left _ _
  constructor
  · intro hgt
    have h0 : (current + 1 - startEpoch last current).toNat = 0 := by omega
    simp [checkAndSign, hbody, h0, scanLoop]
  · intro hle
    have hcur4 : current - 4 ≤ current := by omega
    have hsc : startEpoch last current ≤ current := max_le hle hcur4
    obtain ⟨k, hk⟩ : ∃ k, (current + 1 - startEpoch last current).toNat = k + 1 :=
      ⟨(current - startEpoch last current).toNat, by omega⟩
    obtain ⟨tg, tl, f', hb, -, -⟩ := epochBody_spec env (startEpoch last current) file
    have hmax : max (last + 1) (current - 4) = startEpoch last current := rfl
    rw [hmax]
    simp only [checkAndSign, hbody, hk]
    cases tg with
    | next => rw [scanLoop, hb]; exact ⟨_, rfl⟩
    | brk => rw [scanLoop, hb]; exact ⟨_, rfl⟩
    | thrown => rw [scanLoop, hb]; exact ⟨_, rfl⟩

/-- C1 witness at `last = 5`, `current = 6`. -/
theorem scan_start_formula_and_empty_scan_witness :
    ((5:Int) + 1 > 6 →
      checkAndSign envCurrent6 (some (FileContent.parsable (Json.stateObj 5)))
        = ⟨[], some (FileContent.parsable (Json.stateObj 5)), false⟩)
    ∧ ((5:Int) + 1 ≤ 6 →
      ∃ tl, (checkAndSign envCurrent6 (some (FileContent.parsable (Json.stateObj 5)))).events
        = Event.examine (max ((5:Int) + 1) (6 - 4)) :: tl) :=
  scan_start_formula_and_empty_scan envCurrent6 5 6
    (some (FileContent.parsable (Json.stateObj 5))) rfl rfl rfl

/-- C2: when the uptime-vote submission for epoch `e` throws an error whose
`reason` or `message` contains "epoch not ended", the loop body for `e` ends
the scan right there: no rewards check for `e`, no later epoch, file
untouched. When the error matches neither field, the scan continues on to
read `e`'s rewards hash. -/
theorem uptime_not_ended_halts_scan_else_rewards_checked (env : Env) (e : Int)
    (h : Option String) (s : String) (err : JsError) (fuel : Nat)
    (file : Option FileContent)
    (h1 : env.uptimeVoteHash e = .ok h) (h2 : isHashPresent h = false)
    (h3 : env.getUptimeVoteHash e = .ok s) (h4 : env.signUptimeVote e = .error err) :
    (errIndicatesNotEnded err = true →
      scanLoop env (fuel + 1) e file
        = ⟨[Event.examine e, Event.readUptimeHash e, Event.submitUptime e], file, false⟩)
    ∧ (errIndicatesNotEnded err = false →
      [Event.examine e, Event.readUptimeHash e, Event.submitUptime e,
        Event.readRewardsHash e] <+: (scanLoop env (fuel + 1) e file).events) := by
  constructor
  · intro hne
    have hb : epochBody env e file
        = ⟨BodyTag.brk,
            [Event.examine e, Event.readUptimeHash e, Event.submitUptime e], file⟩ := by
      simp [epochBody, h1, h2, h3, h4, hne]
    rw [scanLoop, hb]
  · intro hne
    have hb : epochBody env e file
        = rewardsPhase env e file
            [Event.examine e, Event.readUptimeHash e, Event.submitUptime e] false := by
      simp [epochBody, h1, h2, h3, h4, hne]
    obtain ⟨tg, tl, f', hr, -, -⟩ := rewardsPhase_spec env e file
      [Event.examine e, Event.readUptimeHash e, Event.submitUptime e] false
    have hb2 := hb.trans hr
    cases tg with
    | next =>
      rw [scanLoop, hb2]
      exact ⟨tl ++ (scanLoop env fuel (e + 1) f').events, by simp⟩
    | brk => rw [scanLoop, hb2]; exact ⟨tl, by simp⟩
    | thrown => rw [scanLoop, hb2]; exact ⟨tl, by simp⟩

/-- C2 witness: epoch 0, absent uptime hash, submission throwing with reason
containing "epoch not ended". -/
theorem uptime_not_ended_halts_scan_else_rewards_checked_witness :
    (errIndicatesNotEnded ⟨some "execution reverted: epoch not ended", none⟩ = true →
      scanLoop envNotEnded (0 + 1) 0 none
        = ⟨[Event.examine 0, Event.readUptimeHash 0, Event.submitUptime 0], none, false⟩)
    ∧ (errIndicatesNotEnded ⟨some "execution reverted: epoch not ended", none⟩ = false →
      [Event.examine 0, Event.readUptimeHash 0, Event.submitUptime 0,
        Event.readRewardsHash 0] <+: (scanLoop envNotEnded (0 + 1) 0 none).events) :=
  uptime_not_ended_halts_scan_else_rewards_checked envNotEnded 0 none "0xfake"
    ⟨some "execution reverted: epoch not ended", none⟩ 0 none rfl rfl rfl rfl

/-- C3: whenever epoch `e`'s iteration reaches the rewards phase — the uptime
hash was already present, or it was absent and the vote was submitted this run
(successfully, or failing with an error not matching "epoch not ended") — and
the rewards-data fetch or the rewards submission then throws, the scan loop
breaks at `e`: every emitted event concerns `e` (no later epoch is examined),
no save occurs, and the state file is exactly what it was when `e`'s iteration
began (so the checkpoint is not advanced to `e` or beyond). -/
theorem rewards_failure_halts_scan (env : Env) (e : Int) (h rh : Option String)
    (fuel : Nat) (file : Option FileContent)
    (h1 : env.uptimeVoteHash e = .ok h)
    (hup : isHashPresent h = true
      ∨ ∃ s, env.getUptimeVoteHash e = .ok s
          ∧ (env.signUptimeVote e = .ok ()
             ∨ ∃ err, env.signUptimeVote e = .error err
                 ∧ errIndicatesNotEnded err = false))
    (h3 : env.rewardsHash e = .ok rh) (h4 : isHashPresent rh = false)
    (h5 : (∃ err, env.getRewardsData e = .error err)
      ∨ ∃ d err, env.getRewardsData e = .ok d ∧ env.signRewards e = .error err) :
    ∃ ev, scanLoop env (fuel + 1) e file = ⟨ev, file, false⟩
      ∧ savedValues ev = [] ∧ ∀ x ∈ ev, x.epoch = e := by
  have hbody : ∃ pre c, epochBody env e file = rewardsPhase env e file pre c
      ∧ savedValues pre = [] ∧ ∀ x ∈ pre, x.epoch = e := by
    cases hhp : isHashPresent h with
    | true =>
      refine ⟨[Event.examine e, Event.readUptimeHash e], true, ?_, rfl, ?_⟩
      · simp [epochBody, h1, hhp]
      · intro x hx
        simp only [List.mem_cons, List.not_mem_nil, or_false] at hx
        rcases hx with rfl | rfl <;> rfl
    | false =>
      rcases hup with hA | ⟨s, hs, hsig⟩
      · simp [hA] at hhp
      · rcases hsig with hok | ⟨err, herr, hgen⟩
        · refine ⟨[Event.examine e, Event.readUptimeHash e, Event.submitUptime e],
            true, ?_, rfl, ?_⟩
          · simp [epochBody, h1, hhp, hs, hok]
          · intro x hx
            simp only [List.mem_cons, List.not_mem_nil, or_false] at hx
            rcases hx with rfl | rfl | rfl <;> rfl
        · refine ⟨[Event.examine e, Event.readUptimeHash e, Event.submitUptime e],
            false, ?_, rfl, ?_⟩
          · simp [epochBody, h1, hhp, hs, herr, hgen]
          · intro x hx
            simp only [List.mem_cons, List.not_mem_nil, or_false] at hx
            rcases hx with rfl | rfl | rfl <;> rfl
  obtain ⟨pre, c, hbe, hsv, hep⟩ := hbody
  rcases h5 with ⟨err, hd⟩ | ⟨d, err, hd, hsr⟩
  · have hbrk : epochBody env e file
        = ⟨BodyTag.brk, pre ++ [Event.readRewardsHash e, Event.fetchRewardsData e],
            file⟩ := by
      rw [hbe]
      simp [rewardsPhase, h3, h4, hd]
    refine ⟨pre ++ [Event.readRewardsHash e, Event.fetchRewardsData e], ?_, ?_, ?_⟩
    · rw [scanLoop, hbrk]
    · simp [hsv]
    · intro x hx
      simp only [List.mem_append, List.mem_cons, List.not_mem_nil, or_false] at hx
      rcases hx with hx | rfl | rfl
      · exact hep x hx
      · rfl
      · rfl
  · have hbrk : epochBody env e file
        = ⟨BodyTag.brk,
            pre ++ [Event.readRewardsHash e, Event.fetchRewardsData e,
              Event.submitRewards e], file⟩ := by
      rw [hbe]
      simp [rewardsPhase, h3, h4, hd, hsr]
    refine ⟨pre ++ [Event.readRewardsHash e, Event.fetchRewardsData e,
      Event.submitRewards e], ?_, ?_, ?_⟩
    · rw [scanLoop, hbrk]
    · simp [hsv]
    · intro x hx
      simp only [List.mem_append, List.mem_cons, List.not_mem_nil, or_false] at hx
      rcases hx with hx | rfl | rfl | rfl
      · exact hep x hx
      · rfl
      · rfl
      · rfl

/-- C3 witness: epoch 1 with uptime already signed and a failing rewards-data
fetch, from a file holding checkpoint 0: the loop ends with only epoch-1
events, no save, file unchanged. -/
theorem rewards_failure_halts_scan_witness :
    ∃ ev, scanLoop envRewardsFetchFails (1 + 1) 1
        (some (FileContent.parsable (Json.stateObj 0)))
        = ⟨ev, some (FileContent.parsable (Json.stateObj 0)), false⟩
      ∧ savedValues ev = [] ∧ ∀ x ∈ ev, x.epoch = 1 :=
  rewards_failure_halts_scan envRewardsFetchFails 1 (some "0xaa") none 1
    (some (FileContent.parsable (Json.stateObj 0))) rfl (Or.inl (by decide)) rfl rfl
    (Or.inl ⟨⟨none, some "http 500"⟩, rfl⟩)

/-- C4: across a sequence of runs in one process lifetime (state file carried
from run to run), the values written by successful `saveState` calls never
decrease: each is at least every previously written one. -/
theorem saved_checkpoints_never_decrease (envs : List Env) (file : Option FileContent)
    (n : Int)
    (hFile : file = none ∧ n = -1 ∨ file = some (FileContent.parsable (Json.stateObj n))) :
    List.Pairwise (· ≤ ·) (savedValues (runs envs file).1) := by
  obtain ⟨-, h2, -⟩ := runs_saves envs file n hFile
  exact h2.imp le_of_lt

/-- C4 witness: two runs (the first saving epoch 0, the second epochs 2-6). -/
theorem saved_checkpoints_never_decrease_witness :
    List.Pairwise (· ≤ ·) (savedValues (runs [okEnv, envCurrent6] none).1) :=
  saved_checkpoints_never_decrease [okEnv, envCurrent6] none (-1) (Or.inl ⟨rfl, rfl⟩)

/-- C5 counterexample: a file whose content is valid JSON but not a
well-formed state object (here the bare number `5`) is returned as parsed by
`loadState`, not replaced by the default `{ lastCompletedEpoch: -1 }`. -/
theorem loadState_returns_parsed_nonstate_value :
    loadState (some (FileContent.parsable (Json.num 5))) = Json.num 5
    ∧ Json.num 5 ≠ Json.stateObj (-1) :=
  ⟨rfl, by decide⟩

/-- C5 amended: `loadState` never throws; a missing file or content on which
`JSON.parse` throws yields the default `{ lastCompletedEpoch: -1 }`, but
content that parses as JSON is returned exactly as parsed, even when it is
not a well-formed state object. -/
theorem loadState_total_characterisation :
    loadState none = Json.stateObj (-1)
    ∧ loadState (some FileContent.malformed) = Json.stateObj (-1)
    ∧ ∀ j, loadState (some (FileContent.parsable j)) = j :=
  ⟨rfl, rfl, fun _ => rfl⟩

/-- C6: a run started from a checkpoint file holding `last` only ever touches
epochs at least `last + 1` — no signature can be re-submitted for an epoch at
or below the persisted checkpoint, whatever the collaborators do. -/
theorem completed_epochs_not_reexamined (env : Env) (last : Int)
    (file : Option FileContent)
    (hFile : file = some (FileContent.parsable (Json.stateObj last))) :
    ∀ ev ∈ (checkAndSign env file).events, last + 1 ≤ ev.epoch := by
  intro ev hev
  have hev' : ev ∈ (checkAndSignBody env file).events := hev
  unfold checkAndSignBody at hev'
  cases hi : env.initializeFlareSystemsManager with
  | error err => rw [hi] at hev'; simp at hev'
  | ok u =>
    rw [hi] at hev'
    cases hc : env.getCurrentRewardEpochId with
    | error err => rw [hc] at hev'; simp at hev'
    | ok current =>
      rw [hc, hFile] at hev'
      simp only [loadState] at hev'
      have hep := scanLoop_events_epoch env
        ((current + 1 - startEpoch last current).toNat) (startEpoch last current)
        (some (FileContent.parsable (Json.stateObj last))) ev hev'
      have hstart : last + 1 ≤ startEpoch last current := le_max_left _ _
      omega

/-- C6 witness: from checkpoint 5 with current epoch 6, the examined epoch 6
is above the checkpoint. -/
theorem completed_epochs_not_reexamined_witness :
    (5:Int) + 1 ≤ Event.epoch (Event.examine 6) :=
  completed_epochs_not_reexamined envCurrent6 5
    (some (FileContent.parsable (Json.stateObj 5))) rfl (Event.examine 6) (by decide)

/-- C7 counterexample: with checkpoint 2, current epoch 2 and both hashes
non-empty, the scan start is 3 > 2, so the run does nothing at all — in
particular the checkpoint file is NOT re-saved (no save event occurs),
contradicting the claim that it is re-saved with the same value. -/
theorem scenarioB_not_resaved :
    (checkAndSign envBothSigned (some (FileContent.parsable (Json.stateObj 2)))).events = []
    ∧ Event.save 2 ∉
        (checkAndSign envBothSigned (some (FileContent.parsable (Json.stateObj 2)))).events := by
  decide

/-- C7 amended: with checkpoint 2, current epoch 2 and both hashes non-empty
for epoch 2, the run examines no epoch, attempts no submission and performs no
save; the checkpoint file is simply left unchanged, still holding 2. -/
theorem scenarioB_nothing_done :
    checkAndSign envBothSigned (some (FileContent.parsable (Json.stateObj 2)))
      = ⟨[], some (FileContent.parsable (Json.stateObj 2)), false⟩ := by
  decide

/-- C8: `checkAndSign` never propagates an exception: whatever the
collaborators do, its result reports no escaped exception, and it passes
through the events and final file of its (possibly throwing) body — the
top-level catch only swallows. -/
theorem checkAndSign_swallows_all_errors (env : Env) (file : Option FileContent) :
    (checkAndSign env file).threw = false
    ∧ (checkAndSign env file).events = (checkAndSignBody env file).events
    ∧ (checkAndSign env file).file = (checkAndSignBody env file).file :=
  ⟨rfl, rfl, rfl⟩

/-- C9: `runWithRetry` invokes the routine at most 3 times, returns right
after the first non-throwing invocation, waits the fixed 30-second delay
between consecutive attempts, and after 3 consecutive throwing attempts logs
the terminal message and returns normally. -/
theorem runWithRetry_attempt_schedule (attempts : Nat → Except JsError Unit) :
    runWithRetry attempts =
      match attempts 0, attempts 1, attempts 2 with
      | .ok _, _, _ => [RetryEvent.attempt 0]
      | .error _, .ok _, _ =>
          [RetryEvent.attempt 0, RetryEvent.wait RETRY_DELAY, RetryEvent.attempt 1]
      | .error _, .error _, .ok _ =>
          [RetryEvent.attempt 0, RetryEvent.wait RETRY_DELAY, RetryEvent.attempt 1,
           RetryEvent.wait RETRY_DELAY, RetryEvent.attempt 2]
      | .error _, .error _, .error _ =>
          [RetryEvent.attempt 0, RetryEvent.wait RETRY_DELAY, RetryEvent.attempt 1,
           RetryEvent.wait RETRY_DELAY, RetryEvent.attempt 2, RetryEvent.giveUp] := by
  cases h0 : attempts 0 <;> cases h1 : attempts 1 <;> cases h2 : attempts 2 <;>
    simp [runWithRetry, MAX_RETRIES, retryLoop, h0, h1, h2]

/-- C10: completeness of all epochs up to the checkpoint is NOT an invariant:
in the gap scenario, epoch 0's uptime submission fails with a generic error
while its rewards hash is present, the scan continues, epoch 1 completes and
the checkpoint is saved as 1; the next run starts at 2 and never re-examines
epoch 0, whose uptime vote remains unsigned. -/
theorem generic_uptime_failure_can_be_skipped_forever :
    (checkAndSign envGap none).file = some (FileContent.parsable (Json.stateObj 1))
    ∧ Event.submitUptime 0 ∈ (checkAndSign envGap none).events
    ∧ Event.save 0 ∉ (checkAndSign envGap none).events
    ∧ Event.save 1 ∈ (checkAndSign envGap none).events
    ∧ checkAndSign envGap (checkAndSign envGap none).file
        = ⟨[], some (FileContent.parsable (Json.stateObj 1)), false⟩ := by
  decide

end SigningTool
